import Mathlib

/-!
Verification of the SSH config generator (cli/configssh.go).

Go strings are modeled as lists of characters (all marker and option text
involved is ASCII, so byte indices and character indices coincide).  The
block locator (lines 56-60 of configssh.go), the stanza generator
(lines 92-116) and the write pipeline (lines 54-135) are embedded as
executable Lean functions.  The Go slice expression
sshConfigContent[:startIndex-1] panics when startIndex = 0; the embedding
returns none (an Option) in exactly that case.
-/

set_option maxRecDepth 100000

/-- Character list of a string literal (Go strings are byte strings; all
    text handled here is ASCII). -/
def chars (s : String) : List Char := s.data

/-- Constant sshStartToken from configssh.go line 22. -/
def sshStartToken : List Char := chars "# ------------START-CODER-----------"

/-- Constant sshStartMessage from configssh.go lines 23-29. -/
def sshStartMessage : List Char :=
  chars "# This was generated by \"coder config-ssh\".\n#\n# To remove this blob, run:\n#\n#    coder config-ssh --remove\n#\n# You should not hand-edit this section, unless you are deleting it."

/-- Constant sshEndToken from configssh.go line 30. -/
def sshEndToken : List Char := chars "# ------------END-CODER------------"

/-- Scan helper for Go strings.Index: first position at or after offset i
    (counting from the original head) where pat is a prefix. -/
def indexFrom (pat : List Char) (s : List Char) (i : Nat) : Option Nat :=
  if pat.isPrefixOf s then some i
  else
    match s with
    | [] => none
    | _ :: rest => indexFrom pat rest (i + 1)

/-- Go strings.Index(s, pat), with none in place of -1. -/
def stringsIndex (s pat : List Char) : Option Nat := indexFrom pat s 0

/-- Block excision, configssh.go lines 56-60:
    startIndex := strings.Index(sshConfigContent, sshStartToken)
    endIndex := strings.Index(sshConfigContent, sshEndToken)
    if startIndex != -1 && endIndex != -1 then
      sshConfigContent = sshConfigContent[:startIndex-1] +
                         sshConfigContent[endIndex+len(sshEndToken):]
    The result none models the Go slice-bounds panic that the expression
    sshConfigContent[:startIndex-1] raises when startIndex = 0. -/
def removeOldBlock (s : List Char) : Option (List Char) :=
  match stringsIndex s sshStartToken, stringsIndex s sshEndToken with
  | some si, some ei =>
      if si = 0 then none
      else some (s.take (si - 1) ++ s.drop (ei + sshEndToken.length))
  | _, _ => some s

/-- pat occurs in s starting at index i. -/
def occursAt (pat s : List Char) (i : Nat) : Prop := pat <+: s.drop i

instance (pat s : List Char) (i : Nat) : Decidable (occursAt pat s i) :=
  inferInstanceAs (Decidable (pat <+: s.drop i))

example : stringsIndex (chars "abcab") (chars "ab") = some 0 := by decide
example : stringsIndex (chars "xabcab") (chars "ab") = some 1 := by decide
example : stringsIndex (chars "xycd") (chars "ab") = none := by decide
example : occursAt (chars "ab") (chars "xab") 1 := by decide

/-- Bridge between the boolean prefix test and the prefix relation. -/
lemma isPre_iff (a b : List Char) : a.isPrefixOf b = true ↔ a <+: b :=
  List.isPrefixOf_iff_prefix

lemma occursAt_zero (pat s : List Char) : occursAt pat s 0 ↔ pat <+: s := by
  unfold occursAt
  rw [List.drop_zero]

lemma occursAt_succ_cons (pat s : List Char) (c : Char) (i : Nat) :
    occursAt pat (c :: s) (i + 1) ↔ occursAt pat s i := by
  unfold occursAt
  rw [List.drop_succ_cons]

/-- An occurrence of a nonempty pattern fits inside the string. -/
lemma occursAt_le_length {pat s : List Char} {i : Nat} (hne : pat ≠ [])
    (h : occursAt pat s i) : i + pat.length ≤ s.length := by
  have h1 : pat.length ≤ (s.drop i).length := List.IsPrefix.length_le h
  rw [List.length_drop] at h1
  have h2 : 0 < pat.length := List.length_pos.mpr hne
  omega

lemma occursAt_lt_length {pat s : List Char} {i : Nat} (hne : pat ≠ [])
    (h : occursAt pat s i) : i < s.length := by
  have h1 := occursAt_le_length hne h
  have h2 : 0 < pat.length := List.length_pos.mpr hne
  omega

/-- Characters of an occurrence. -/
lemma occursAt_getElem {pat s : List Char} {i : Nat} (h : occursAt pat s i)
    (k : Nat) (hk : k < pat.length) : s[i + k]? = pat[k]? := by
  obtain ⟨t, ht⟩ := h
  have h1 : (s.drop i)[k]? = s[i + k]? := List.getElem?_drop s i k
  rw [← h1, ← ht, List.getElem?_append_left hk]

/-- A list is a prefix of an append as soon as it is a prefix of the left part. -/
lemma isPre_append_of_isPre {pat x : List Char} (y : List Char) (h : pat <+: x) :
    pat <+: x ++ y := by
  obtain ⟨t, ht⟩ := h
  exact ⟨t ++ y, by rw [← List.append_assoc, ht]⟩

/-- A short prefix of an append is a prefix of the left part. -/
lemma isPre_of_isPre_append {pat x y : List Char} (h : pat <+: x ++ y)
    (hlen : pat.length ≤ x.length) : pat <+: x := by
  obtain ⟨t, ht⟩ := h
  have h1 : (pat ++ t).take pat.length = (x ++ y).take pat.length := by rw [ht]
  rw [List.take_left, List.take_append_eq_append_take] at h1
  have h2 : pat.length - x.length = 0 := by omega
  rw [h2, List.take_zero, List.append_nil] at h1
  exact h1 ▸ ⟨x.drop pat.length, List.take_append_drop pat.length x⟩

lemma occursAt_append_left {pat x : List Char} (y : List Char) {j : Nat}
    (h : occursAt pat x j) : occursAt pat (x ++ y) j := by
  unfold occursAt at *
  rw [List.drop_append_eq_append_drop]
  exact isPre_append_of_isPre _ h

lemma occursAt_append_right (x : List Char) {pat y : List Char} {r : Nat}
    (h : occursAt pat y r) : occursAt pat (x ++ y) (x.length + r) := by
  unfold occursAt at *
  rw [List.drop_append_eq_append_drop, List.drop_eq_nil_of_le (by omega),
    List.nil_append, Nat.add_sub_cancel_left]
  exact h

lemma occursAt_take {pat s : List Char} {n j : Nat}
    (h : occursAt pat (s.take n) j) : occursAt pat s j := by
  have h1 := occursAt_append_left (s.drop n) h
  rwa [List.take_append_drop] at h1

lemma occursAt_drop {pat s : List Char} {n r : Nat}
    (h : occursAt pat (s.drop n) r) : occursAt pat s (n + r) := by
  unfold occursAt at *
  rwa [List.drop_drop] at h

/-- Decomposing an occurrence in an append: entirely left, entirely right,
    or spanning the junction. -/
lemma occursAt_append_split {pat x y : List Char} {j : Nat}
    (h : occursAt pat (x ++ y) j) :
    (j + pat.length ≤ x.length ∧ occursAt pat x j) ∨
    (x.length ≤ j ∧ occursAt pat y (j - x.length)) ∨
    (j < x.length ∧ x.length < j + pat.length) := by
  unfold occursAt at h
  rw [List.drop_append_eq_append_drop] at h
  rcases le_or_lt (j + pat.length) x.length with h1 | h1
  · left
    refine ⟨h1, ?_⟩
    have hx : pat.length ≤ (x.drop j).length := by rw [List.length_drop]; omega
    exact isPre_of_isPre_append h hx
  · rcases le_or_lt x.length j with h2 | h2
    · right; left
      refine ⟨h2, ?_⟩
      rwa [List.drop_eq_nil_of_le h2, List.nil_append] at h
    · right; right; exact ⟨h2, h1⟩

lemma indexFrom_some {pat : List Char} :
    ∀ (s : List Char) (i k : Nat), indexFrom pat s i = some k →
      ∃ d, k = i + d ∧ occursAt pat s d ∧ ∀ e, e < d → ¬ occursAt pat s e := by
  intro s
  induction s with
  | nil =>
    intro i k h
    simp only [indexFrom] at h
    split at h
    · next hp =>
      injection h with h
      refine ⟨0, by omega, ?_, ?_⟩
      · exact (occursAt_zero pat []).mpr ((isPre_iff pat []).mp hp)
      · intro e he; omega
    · exact absurd h (by simp)
  | cons c rest ih =>
    intro i k h
    simp only [indexFrom] at h
    split at h
    · next hp =>
      injection h with h
      refine ⟨0, by omega, ?_, ?_⟩
      · exact (occursAt_zero pat (c :: rest)).mpr ((isPre_iff pat (c :: rest)).mp hp)
      · intro e he; omega
    · next hp =>
      obtain ⟨d, hd, hocc, hmin⟩ := ih (i + 1) k h
      refine ⟨d + 1, by omega, (occursAt_succ_cons pat rest c d).mpr hocc, ?_⟩
      intro e he hocce
      match e with
      | 0 =>
        have h0 : pat <+: c :: rest := (occursAt_zero pat (c :: rest)).mp hocce
        exact hp ((isPre_iff pat (c :: rest)).mpr h0)
      | e + 1 =>
        exact hmin e (by omega) ((occursAt_succ_cons pat rest c e).mp hocce)

lemma indexFrom_none {pat : List Char} :
    ∀ (s : List Char) (i : Nat), indexFrom pat s i = none →
      ∀ d, ¬ occursAt pat s d := by
  intro s
  induction s with
  | nil =>
    intro i h d hocc
    have h0 : pat <+: [] := by
      unfold occursAt at hocc
      rwa [List.drop_nil] at hocc
    have hp : pat.isPrefixOf [] = true := (isPre_iff pat []).mpr h0
    simp [indexFrom, hp] at h
  | cons c rest ih =>
    intro i h d hocc
    simp only [indexFrom] at h
    split at h
    · exact absurd h (by simp)
    · next hp =>
      match d with
      | 0 =>
        have h0 : pat <+: c :: rest := (occursAt_zero pat (c :: rest)).mp hocc
        exact hp ((isPre_iff pat (c :: rest)).mpr h0)
      | d + 1 =>
        exact ih (i + 1) h d ((occursAt_succ_cons pat rest c d).mp hocc)

lemma indexFrom_exists {pat : List Char} :
    ∀ (s : List Char) (i d : Nat), occursAt pat s d →
      ∃ k, indexFrom pat s i = some k ∧ k ≤ i + d := by
  intro s
  induction s with
  | nil =>
    intro i d hocc
    have h0 : pat <+: [] := by
      unfold occursAt at hocc
      rwa [List.drop_nil] at hocc
    have hp : pat.isPrefixOf [] = true := (isPre_iff pat []).mpr h0
    exact ⟨i, by simp [indexFrom, hp], by omega⟩
  | cons c rest ih =>
    intro i d hocc
    by_cases hp : pat.isPrefixOf (c :: rest) = true
    · exact ⟨i, by simp [indexFrom, hp], by omega⟩
    · match d with
      | 0 =>
        have h0 : pat <+: c :: rest := (occursAt_zero pat (c :: rest)).mp hocc
        exact absurd ((isPre_iff pat (c :: rest)).mpr h0) hp
      | d + 1 =>
        obtain ⟨k, hk, hle⟩ := ih (i + 1) d ((occursAt_succ_cons pat rest c d).mp hocc)
        refine ⟨k, ?_, by omega⟩
        simp only [indexFrom, hp]
        exact hk

/-- What a successful strings.Index means: an occurrence, and the first one. -/
lemma stringsIndex_some {s pat : List Char} {k : Nat}
    (h : stringsIndex s pat = some k) :
    occursAt pat s k ∧ ∀ e, e < k → ¬ occursAt pat s e := by
  obtain ⟨d, hd, hocc, hmin⟩ := indexFrom_some s 0 k h
  have h0 : d = k := by omega
  exact ⟨h0 ▸ hocc, h0 ▸ hmin⟩

/-- strings.Index returns -1 exactly when there is no occurrence. -/
lemma stringsIndex_none {s pat : List Char}
    (h : stringsIndex s pat = none) : ∀ d, ¬ occursAt pat s d :=
  indexFrom_none s 0 h

lemma stringsIndex_eq_some_of_minimal {s pat : List Char} {i : Nat}
    (hocc : occursAt pat s i) (hmin : ∀ j, occursAt pat s j → i ≤ j) :
    stringsIndex s pat = some i := by
  obtain ⟨k, hk, hle⟩ := indexFrom_exists s 0 i hocc
  obtain ⟨hkocc, _⟩ := stringsIndex_some hk
  have h1 : i ≤ k := hmin k hkocc
  have h2 : k = i := by omega
  rwa [h2] at hk

lemma stringsIndex_zero_of_isPre {s pat : List Char} (h : pat <+: s) :
    stringsIndex s pat = some 0 :=
  stringsIndex_eq_some_of_minimal ((occursAt_zero pat s).mpr h)
    (fun j _ => Nat.zero_le j)

/-- Lift a bounded no-occurrence check (decidable) to all indices. -/
lemma no_occurrence_of_ball {pat s : List Char} (hne : pat ≠ [])
    (h : ∀ j, j < s.length → ¬ occursAt pat s j) : ∀ j, ¬ occursAt pat s j :=
  fun j hocc => h j (occursAt_lt_length hne hocc) hocc

/-- Lift a bounded unique-occurrence check (decidable) to all indices. -/
lemma unique_occurrence_of_ball {pat s : List Char} (k : Nat) (hne : pat ≠ [])
    (h : ∀ j, j < s.length → occursAt pat s j → j = k) :
    ∀ j, occursAt pat s j → j = k :=
  fun j hocc => h j (occursAt_lt_length hne hocc) hocc

/-- An occurrence that covers a newline position inside the string is
    impossible for a pattern that contains no newline. -/
lemma occursAt_newline_contra {pat s : List Char} {j m : Nat}
    (hocc : occursAt pat s j) (hj : j ≤ m) (hm : m < j + pat.length)
    (hchar : s[m]? = some '\n')
    (hpat : ∀ d, d < pat.length → ¬ pat[d]? = some '\n') : False := by
  have h1 : s[j + (m - j)]? = pat[m - j]? := occursAt_getElem hocc (m - j) (by omega)
  have h2 : j + (m - j) = m := by omega
  rw [h2, hchar] at h1
  exact hpat (m - j) (by omega) h1.symm


lemma removeOldBlock_both {s : List Char} {si ei : Nat}
    (hsi : stringsIndex s sshStartToken = some si)
    (hei : stringsIndex s sshEndToken = some ei) :
    removeOldBlock s =
      if si = 0 then none
      else some (s.take (si - 1) ++ s.drop (ei + sshEndToken.length)) := by
  unfold removeOldBlock
  rw [hsi, hei]

lemma removeOldBlock_noStart {s : List Char}
    (hsi : stringsIndex s sshStartToken = none) : removeOldBlock s = some s := by
  unfold removeOldBlock
  rw [hsi]

lemma removeOldBlock_noEnd {s : List Char} {si : Nat}
    (hsi : stringsIndex s sshStartToken = some si)
    (hei : stringsIndex s sshEndToken = none) : removeOldBlock s = some s := by
  unfold removeOldBlock
  rw [hsi, hei]

lemma sshStartToken_ne_nil : sshStartToken ≠ [] := by decide

lemma sshEndToken_ne_nil : sshEndToken ≠ [] := by decide

/-- The marker character # appears only at position 0 of the start token. -/
lemma startToken_hash_only_zero :
    ∀ d, d < sshStartToken.length → d ≠ 0 → ¬ sshStartToken[d]? = some '#' := by decide

/-- The marker character # appears only at position 0 of the end token. -/
lemma endToken_hash_only_zero :
    ∀ d, d < sshEndToken.length → d ≠ 0 → ¬ sshEndToken[d]? = some '#' := by decide

lemma startToken_no_newline :
    ∀ d, d < sshStartToken.length → ¬ sshStartToken[d]? = some '\n' := by decide

lemma endToken_no_newline :
    ∀ d, d < sshEndToken.length → ¬ sshEndToken[d]? = some '\n' := by decide

/-- The two tokens differ at position 14 (START vs END). -/
lemma tokens_differ :
    sshStartToken[14]? = some 'S' ∧ sshEndToken[14]? = some 'E' ∧
    14 < sshStartToken.length ∧ 14 < sshEndToken.length := by decide

lemma endToken_length_lt : sshEndToken.length < sshStartToken.length := by decide

/-- C3: the block-excision step is partial.  It aborts (Go: an out-of-bounds
    slice panic from sshConfigContent[:startIndex-1]) exactly when the text
    begins with the start marker at offset 0 while the end marker is also
    present; whenever at least one character precedes the start marker (or a
    marker is absent) it returns a result. -/
theorem claim_C3 (s : List Char) :
    removeOldBlock s = none ↔
      (sshStartToken <+: s ∧ ∃ j, occursAt sshEndToken s j) := by
  constructor
  · intro h
    cases hsi : stringsIndex s sshStartToken with
    | none => rw [removeOldBlock_noStart hsi] at h; exact absurd h (by simp)
    | some si =>
      cases hei : stringsIndex s sshEndToken with
      | none => rw [removeOldBlock_noEnd hsi hei] at h; exact absurd h (by simp)
      | some ei =>
        rw [removeOldBlock_both hsi hei] at h
        by_cases h0 : si = 0
        · subst h0
          have h1 := (stringsIndex_some hsi).1
          exact ⟨(occursAt_zero _ _).mp h1, ei, (stringsIndex_some hei).1⟩
        · rw [if_neg h0] at h; exact absurd h (by simp)
  · rintro ⟨hpre, j, hocc⟩
    have hsi : stringsIndex s sshStartToken = some 0 := stringsIndex_zero_of_isPre hpre
    obtain ⟨k, hk, _⟩ := indexFrom_exists s 0 j hocc
    have hei : stringsIndex s sshEndToken = some k := hk
    rw [removeOldBlock_both hsi hei]
    simp

/-- Config text whose managed block starts at offset 0: the panic input. -/
def panicCfg : List Char := sshStartToken ++ (chars "\n" ++ sshEndToken)

/-- C1 counterexample: a text containing both markers (the start marker at
    offset 0) on which the locator does not return any text at all — the Go
    code panics on the slice sshConfigContent[:startIndex-1] — instead of
    returning the text with the block span removed. -/
theorem claim_C1_cex :
    occursAt sshStartToken panicCfg 0 ∧ occursAt sshEndToken panicCfg 37 ∧
    removeOldBlock panicCfg = none := by decide

/-- C1 (amended): if either marker is absent the locator returns the text
    unchanged; if both occur and at least one character precedes the first
    occurrence of the start marker, it removes exactly the span from one
    character before the first start-marker occurrence through the last
    character of the first end-marker occurrence (the kept tail resumes at
    the character immediately after the end marker).  (The unamended claim
    fails when the start marker sits at offset 0: the excision panics, see
    the counterexample.) -/
theorem claim_C1 (s : List Char) :
    (((∀ j, ¬ occursAt sshStartToken s j) ∨ (∀ j, ¬ occursAt sshEndToken s j)) →
        removeOldBlock s = some s) ∧
    (∀ si ei, occursAt sshStartToken s si →
        (∀ j, occursAt sshStartToken s j → si ≤ j) →
        occursAt sshEndToken s ei →
        (∀ j, occursAt sshEndToken s j → ei ≤ j) →
        1 ≤ si →
        removeOldBlock s =
          some (s.take (si - 1) ++ s.drop (ei + sshEndToken.length))) := by
  constructor
  · intro h
    cases hsi : stringsIndex s sshStartToken with
    | none => exact removeOldBlock_noStart hsi
    | some si =>
      cases hei : stringsIndex s sshEndToken with
      | none => exact removeOldBlock_noEnd hsi hei
      | some ei =>
        exfalso
        rcases h with h | h
        · exact h si (stringsIndex_some hsi).1
        · exact h ei (stringsIndex_some hei).1
  · intro si ei hso hsmin heo hemin h1
    have hsi : stringsIndex s sshStartToken = some si :=
      stringsIndex_eq_some_of_minimal hso hsmin
    have hei : stringsIndex s sshEndToken = some ei :=
      stringsIndex_eq_some_of_minimal heo hemin
    rw [removeOldBlock_both hsi hei, if_neg (show ¬ si = 0 by omega)]

/-- A config file with ordinary user content around one managed block. -/
def exampleCfg : List Char :=
  (chars "user config\n" ++ (sshStartToken ++
    (chars "\nblock body\n" ++ (sshEndToken ++ chars "\ntrailing"))))

/-- Witness for C1 at a concrete config text: one block surrounded by user
    content is excised together with the character preceding the start
    marker. -/
theorem claim_C1_witness :
    occursAt sshStartToken exampleCfg 12 ∧
    (∀ j, occursAt sshStartToken exampleCfg j → 12 ≤ j) ∧
    occursAt sshEndToken exampleCfg 60 ∧
    (∀ j, occursAt sshEndToken exampleCfg j → 60 ≤ j) ∧
    removeOldBlock exampleCfg = some (chars "user config\ntrailing") ∧
    removeOldBlock (chars "plain user text") = some (chars "plain user text") := by
  have h0 : removeOldBlock (chars "plain user text") = some (chars "plain user text") :=
    (claim_C1 (chars "plain user text")).1
      (Or.inl (no_occurrence_of_ball sshStartToken_ne_nil (by decide)))
  have h1 : occursAt sshStartToken exampleCfg 12 := by decide
  have h2 : ∀ j, occursAt sshStartToken exampleCfg j → 12 ≤ j :=
    fun j h =>
      le_of_eq (unique_occurrence_of_ball 12 sshStartToken_ne_nil (by decide) j h).symm
  have h3 : occursAt sshEndToken exampleCfg 60 := by decide
  have h4 : ∀ j, occursAt sshEndToken exampleCfg j → 60 ≤ j :=
    fun j h =>
      le_of_eq (unique_occurrence_of_ball 60 sshEndToken_ne_nil (by decide) j h).symm
  refine ⟨h1, h2, h3, h4, ?_, h0⟩
  rw [(claim_C1 exampleCfg).2 12 60 h1 h2 h3 h4 (by omega)]
  decide

/-- codersdk.WorkspaceAgent, reduced to the field the generator reads. -/
structure WorkspaceAgent where
  name : List Char
deriving DecidableEq

/-- database.WorkspaceTransition values. -/
inductive WorkspaceTransition where
  | start
  | stop
  | delete
deriving DecidableEq

/-- codersdk.WorkspaceResource, reduced to the fields the generator reads. -/
structure WorkspaceResource where
  transition : WorkspaceTransition
  agents : List WorkspaceAgent
deriving DecidableEq

/-- A workspace together with the resource list the resolver returns for its
    latest build (client.TemplateVersionResources); the resolver is an
    external collaborator, so its answer is part of the input. -/
structure Workspace where
  name : List Char
  resources : List WorkspaceResource
deriving DecidableEq

/-- Resolved inputs of one config-ssh run: the pre-existing file content
    (empty when the file is missing), the resolver's answer, and the
    command-line values. -/
structure ConfigSSHInput where
  sshConfigFileContent : List Char
  workspaces : List Workspace
  sshOptions : List (List Char)
  skipProxyCommand : Bool
  binaryFile : List Char
  root : List Char
deriving DecidableEq

/-- Hex digit used by Go quoting of control bytes. -/
def hexDigit (n : Nat) : Char := (chars "0123456789abcdef").getD n '0'

/-- One character under Go fmt %q (strconv.Quote), for the ASCII content
    this program handles: quote and backslash are backslash-escaped, the
    named control characters use their short escapes, remaining control
    bytes and DEL use a hex escape, and printable characters pass through.
    (Non-ASCII printable runes also pass through, as in Go; the exotic
    non-printable Unicode cases are outside every input considered here.) -/
def quoteRune (c : Char) : List Char :=
  if c = '"' ∨ c = '\\' then ['\\', c]
  else if c = '\x07' then chars "\\a"
  else if c = '\x08' then chars "\\b"
  else if c = '\x0c' then chars "\\f"
  else if c = '\n' then chars "\\n"
  else if c = '\x0d' then chars "\\r"
  else if c = '\t' then chars "\\t"
  else if c = '\x0b' then chars "\\v"
  else if c.toNat < 32 ∨ c.toNat = 127 then
    ['\\', 'x', hexDigit (c.toNat / 16), hexDigit (c.toNat % 16)]
  else [c]

/-- Go fmt %q of a string. -/
def goQuote (s : List Char) : List Char := '"' :: ((s.map quoteRune).flatten ++ ['"'])

/-- Host alias suffix, configssh.go lines 92-95:
    hostname := workspace.Name
    if len(resource.Agents) > 1 then hostname += "." + agent.Name. -/
def hostnameFor (w : Workspace) (r : WorkspaceResource) (a : WorkspaceAgent) : List Char :=
  if r.agents.length > 1 then w.name ++ ('.' :: a.name) else w.name

/-- The configOptions list built for one agent, configssh.go lines 96-115. -/
def configOptionsFor (opts : List (List Char)) (skip : Bool)
    (bin root hostname : List Char) : List (List Char) :=
  ([chars "Host coder." ++ hostname]
    ++ opts.map (fun o => '\t' :: o))
    ++ ([chars "\tHostName coder." ++ hostname,
        chars "\tConnectTimeout=0",
        chars "\tStrictHostKeyChecking=no",
        chars "\tUserKnownHostsFile=/dev/null",
        chars "\tLogLevel ERROR"]
    ++ (if skip then []
        else [chars "\tProxyCommand " ++ (goQuote bin ++ (chars " --global-config " ++
              (goQuote root ++ (chars " ssh --stdio " ++ hostname))))]))

/-- Text appended for one agent, configssh.go line 116:
    strings.Join(configOptions, "\n") + "\n". -/
def stanzaText (opts : List (List Char)) (skip : Bool)
    (bin root hostname : List Char) : List Char :=
  List.intercalate (chars "\n") (configOptionsFor opts skip bin root hostname) ++ chars "\n"

/-- Text contributed by one resource: nothing unless its transition is
    "start" (configssh.go lines 86-89), else one stanza per agent. -/
def resourceStanzas (opts : List (List Char)) (skip : Bool) (bin root : List Char)
    (w : Workspace) (r : WorkspaceResource) : List Char :=
  if r.transition = WorkspaceTransition.start then
    (r.agents.map (fun a => stanzaText opts skip bin root (hostnameFor w r a))).flatten
  else []

/-- Text contributed by one workspace (the errgroup task body, appends in
    iteration order). -/
def workspaceStanzas (opts : List (List Char)) (skip : Bool) (bin root : List Char)
    (w : Workspace) : List Char :=
  (w.resources.map (resourceStanzas opts skip bin root w)).flatten

/-- The whole generated stanza body of a run.  The concurrent fan-out is
    modeled by the in-order schedule (cross-workspace order in the real
    program is first-finished-first; within one workspace the order is
    exactly this one). -/
def bodyOf (inp : ConfigSSHInput) : List Char :=
  (inp.workspaces.map
    (workspaceStanzas inp.sshOptions inp.skipProxyCommand inp.binaryFile inp.root)).flatten

/-- Final file content, configssh.go lines 76 and 127:
    excised + "\n" + startToken + "\n" + startMessage + "\n\n"
            + body + "\n" + endToken. -/
def finalContent (inp : ConfigSSHInput) (excised : List Char) : List Char :=
  excised ++ ('\n' :: (sshStartToken ++ ('\n' :: (sshStartMessage ++
    (chars "\n\n" ++ (bodyOf inp ++ ('\n' :: sshEndToken)))))))

/-- File-system effects the run performs, in order. -/
inductive FSEffect where
  | mkdirAllParentOf (path : List Char)
  | writeFile (path : List Char) (content : List Char)
deriving DecidableEq

/-- How the run ends: normal, an error return, or a runtime panic. -/
inductive RunStatus where
  | ok
  | errored (msg : List Char)
  | panicked
deriving DecidableEq

structure RunResult where
  effects : List FSEffect
  status : RunStatus
deriving DecidableEq

/-- The run of the config-ssh command body, configssh.go lines 54-135,
    starting after the client/organization setup: read file (modeled as the
    given content), excise the old block (panic propagates), abort when the
    workspace list is empty, otherwise build the new content and perform
    MkdirAll on the file's parent followed by WriteFile. -/
def configSSHRun (path : List Char) (inp : ConfigSSHInput) : RunResult :=
  match removeOldBlock inp.sshConfigFileContent with
  | none => ⟨[], RunStatus.panicked⟩
  | some excised =>
    if inp.workspaces.length = 0 then
      ⟨[], RunStatus.errored (chars "You don't have any workspaces!")⟩
    else
      ⟨[FSEffect.mkdirAllParentOf path,
        FSEffect.writeFile path (finalContent inp excised)], RunStatus.ok⟩

/-- Content written by a run, if any. -/
def writtenContent (r : RunResult) : Option (List Char) :=
  (r.effects.filterMap (fun e =>
    match e with
    | FSEffect.writeFile _ c => some c
    | _ => none)).head?

/-- The spec's HostAlias for one agent: the name used on the Host and
    HostName lines (with the "coder." prefix). -/
def aliasFor (w : Workspace) (r : WorkspaceResource) (a : WorkspaceAgent) : List Char :=
  chars "coder." ++ hostnameFor w r a

/-- Per-resource list of ((workspace name, agent name), alias) for the
    agents that get a stanza. -/
def resourceAliasEntries (w : Workspace) (r : WorkspaceResource) :
    List ((List Char × List Char) × List Char) :=
  if r.transition = WorkspaceTransition.start then
    r.agents.map (fun a => ((w.name, a.name), aliasFor w r a))
  else []

/-- All ((workspace name, agent name), alias) pairs of a run, in emission
    order. -/
def aliasEntries (ws : List Workspace) : List ((List Char × List Char) × List Char) :=
  (ws.map (fun w => (w.resources.map (resourceAliasEntries w)).flatten)).flatten

/-- The aliases a resource contributes. -/
def resourceAliases (w : Workspace) (r : WorkspaceResource) : List (List Char) :=
  (resourceAliasEntries w r).map Prod.snd

/-- The first line of a stanza is Host followed by the alias. -/
lemma hostLine_uses_alias (opts : List (List Char)) (skip : Bool)
    (bin root : List Char) (w : Workspace) (r : WorkspaceResource) (a : WorkspaceAgent) :
    (configOptionsFor opts skip bin root (hostnameFor w r a)).head? =
      some (chars "Host " ++ aliasFor w r a) := by
  have h1 : chars "Host coder." = chars "Host " ++ chars "coder." := by decide
  simp [configOptionsFor, aliasFor, h1, List.append_assoc]

/-- C6: stanza line order.  For every input the lines are Host, then each
    extra option (tab-indented, verbatim), then HostName, ConnectTimeout=0,
    StrictHostKeyChecking=no, UserKnownHostsFile=/dev/null, LogLevel ERROR,
    then the ProxyCommand line unless it is suppressed by the skip-proxy
    flag, in which case the stanza is the same lines without it; in the
    concrete dev/main scenario the stanza is exactly the eight expected
    lines. -/
theorem claim_C6 :
    (∀ opts bin root hostname,
      configOptionsFor opts false bin root hostname =
        [chars "Host coder." ++ hostname] ++ opts.map (fun o => '\t' :: o) ++
        [chars "\tHostName coder." ++ hostname,
         chars "\tConnectTimeout=0",
         chars "\tStrictHostKeyChecking=no",
         chars "\tUserKnownHostsFile=/dev/null",
         chars "\tLogLevel ERROR",
         chars "\tProxyCommand " ++ (goQuote bin ++ (chars " --global-config " ++
           (goQuote root ++ (chars " ssh --stdio " ++ hostname))))]) ∧
    (∀ opts bin root hostname,
      configOptionsFor opts true bin root hostname =
        [chars "Host coder." ++ hostname] ++ opts.map (fun o => '\t' :: o) ++
        [chars "\tHostName coder." ++ hostname,
         chars "\tConnectTimeout=0",
         chars "\tStrictHostKeyChecking=no",
         chars "\tUserKnownHostsFile=/dev/null",
         chars "\tLogLevel ERROR"]) ∧
    configOptionsFor [chars "ForwardAgent yes"] false (chars "/usr/local/bin/coder")
        (chars "/home/u/.coder")
        (hostnameFor ⟨chars "dev", [⟨WorkspaceTransition.start, [⟨chars "main"⟩]⟩]⟩
          ⟨WorkspaceTransition.start, [⟨chars "main"⟩]⟩ ⟨chars "main"⟩) =
      [chars "Host coder.dev",
       chars "\tForwardAgent yes",
       chars "\tHostName coder.dev",
       chars "\tConnectTimeout=0",
       chars "\tStrictHostKeyChecking=no",
       chars "\tUserKnownHostsFile=/dev/null",
       chars "\tLogLevel ERROR",
       chars "\tProxyCommand \"/usr/local/bin/coder\" --global-config \"/home/u/.coder\" ssh --stdio dev"] := by
  refine ⟨?_, ?_, ?_⟩
  · intro opts bin root hostname
    simp [configOptionsFor]
  · intro opts bin root hostname
    simp [configOptionsFor]
  · decide

/-- C7: alias disambiguation.  A start resource with a single agent yields
    the alias coder.(workspace name); one with several agents yields
    coder.(workspace name).(agent name) for each agent. -/
theorem claim_C7 :
    (∀ w r a, r.transition = WorkspaceTransition.start → r.agents = [a] →
        resourceAliases w r = [chars "coder." ++ w.name]) ∧
    (∀ w r, r.transition = WorkspaceTransition.start → 1 < r.agents.length →
        resourceAliases w r =
          r.agents.map (fun a => chars "coder." ++ (w.name ++ ('.' :: a.name)))) := by
  constructor
  · intro w r a ht ha
    simp [resourceAliases, resourceAliasEntries, ht, ha, aliasFor, hostnameFor]
  · intro w r ht hlen
    simp only [resourceAliases, resourceAliasEntries, ht, if_pos, aliasFor, hostnameFor,
      List.map_map]
    refine List.map_congr_left ?_
    intro a _
    simp [if_pos hlen]

/-- Workspace dev with a single-agent start resource. -/
def devAgent : WorkspaceAgent := ⟨chars "main"⟩

def devResource : WorkspaceResource := ⟨WorkspaceTransition.start, [devAgent]⟩

def devWorkspace : Workspace := ⟨chars "dev", [devResource]⟩

/-- A start resource with the two agents a and b of the claim. -/
def abResource : WorkspaceResource :=
  ⟨WorkspaceTransition.start, [⟨chars "a"⟩, ⟨chars "b"⟩]⟩

/-- Witness for C7: the dev/main resource yields coder.dev, and the
    two-agent resource yields coder.dev.a and coder.dev.b. -/
theorem claim_C7_witness :
    (devResource.transition = WorkspaceTransition.start ∧ devResource.agents = [devAgent] ∧
      resourceAliases devWorkspace devResource = [chars "coder.dev"]) ∧
    (abResource.transition = WorkspaceTransition.start ∧ 1 < abResource.agents.length ∧
      resourceAliases devWorkspace abResource =
        [chars "coder.dev.a", chars "coder.dev.b"]) := by
  constructor
  · refine ⟨rfl, rfl, ?_⟩
    rw [claim_C7.1 devWorkspace devResource devAgent rfl rfl]
    decide
  · refine ⟨rfl, by decide, ?_⟩
    rw [claim_C7.2 devWorkspace abResource rfl (by decide)]
    decide

/-- C9: a resource whose transition is not "start" contributes no stanza
    text and no alias entries, whatever its agent list. -/
theorem claim_C9 (opts : List (List Char)) (skip : Bool) (bin root : List Char)
    (w : Workspace) (r : WorkspaceResource)
    (h : r.transition ≠ WorkspaceTransition.start) :
    resourceStanzas opts skip bin root w r = [] ∧ resourceAliasEntries w r = [] := by
  constructor
  · simp [resourceStanzas, h]
  · simp [resourceAliasEntries, h]

/-- A stop-transition resource holding two agents. -/
def stopResource : WorkspaceResource :=
  ⟨WorkspaceTransition.stop, [⟨chars "a"⟩, ⟨chars "b"⟩]⟩

/-- Witness for C9 at the stop resource with two agents. -/
theorem claim_C9_witness :
    stopResource.transition ≠ WorkspaceTransition.start ∧
    resourceStanzas [] false (chars "/bin/coder") (chars "/cfg") devWorkspace stopResource = [] ∧
    resourceAliasEntries devWorkspace stopResource = [] :=
  ⟨by decide,
   (claim_C9 [] false (chars "/bin/coder") (chars "/cfg") devWorkspace stopResource
     (by decide)).1,
   (claim_C9 [] false (chars "/bin/coder") (chars "/cfg") devWorkspace stopResource
     (by decide)).2⟩

/-- A rendered line counts as a ProxyCommand line when it begins with a tab
    followed by the ProxyCommand keyword, the shape of the generated proxy
    line. -/
def isProxyCommandLine (l : List Char) : Bool := (chars "\tProxyCommand ").isPrefixOf l

/-- Number of ProxyCommand lines in a rendered stanza. -/
def proxyLineCount (lines : List (List Char)) : Nat := lines.countP isProxyCommandLine

lemma isProxyCommandLine_head_ne (c : Char) (xs y : List Char) (hc : c ≠ '\t') :
    isProxyCommandLine ((c :: xs) ++ y) = false := by
  rw [Bool.eq_false_iff]
  intro h
  obtain ⟨t, ht⟩ := (isPre_iff _ _).mp h
  have h0 : (chars "\tProxyCommand " ++ t).head? = some '\t' := rfl
  rw [ht] at h0
  have h1 : some c = some '\t' := h0
  exact hc (Option.some.inj h1)

lemma isProxyCommandLine_tab_ne (c : Char) (xs y : List Char) (hc : c ≠ 'P') :
    isProxyCommandLine (('\t' :: (c :: xs)) ++ y) = false := by
  rw [Bool.eq_false_iff]
  intro h
  obtain ⟨t, ht⟩ := (isPre_iff _ _).mp h
  have h0 : (chars "\tProxyCommand " ++ t)[1]? = some 'P' := rfl
  rw [ht] at h0
  simp only [List.cons_append, List.getElem?_cons_succ, List.getElem?_cons_zero] at h0
  exact hc (Option.some.inj h0)

lemma isProxyCommandLine_option (o : List Char) :
    isProxyCommandLine ('\t' :: o) = (chars "ProxyCommand ").isPrefixOf o := by
  rfl

lemma isProxyCommandLine_generated (z : List Char) :
    isProxyCommandLine (chars "\tProxyCommand " ++ z) = true :=
  (isPre_iff _ _).mpr ⟨z, rfl⟩

/-- C8 (amended): provided no caller-supplied extra option line itself
    starts with the ProxyCommand keyword, a stanza rendered with the
    skip-proxy flag contains no ProxyCommand line and one rendered without
    it contains exactly one.  (The unamended claim fails because extra
    options are injected verbatim: an option line ProxyCommand ... becomes a
    ProxyCommand line of the stanza even under the skip-proxy flag, see the
    counterexample.) -/
theorem claim_C8 (opts : List (List Char)) (bin root hostname : List Char)
    (hopts : ∀ o ∈ opts, (chars "ProxyCommand ").isPrefixOf o = false) :
    proxyLineCount (configOptionsFor opts true bin root hostname) = 0 ∧
    proxyLineCount (configOptionsFor opts false bin root hostname) = 1 := by
  have hhost : isProxyCommandLine (chars "Host coder." ++ hostname) = false := by
    have h1 : chars "Host coder." = 'H' :: chars "ost coder." := rfl
    rw [h1]
    exact isProxyCommandLine_head_ne 'H' _ _ (by decide)
  have hhn : isProxyCommandLine (chars "\tHostName coder." ++ hostname) = false := by
    have h1 : chars "\tHostName coder." = '\t' :: ('H' :: chars "ostName coder.") := rfl
    rw [h1]
    exact isProxyCommandLine_tab_ne 'H' _ _ (by decide)
  have hproxy : isProxyCommandLine (chars "\tProxyCommand " ++ (goQuote bin ++
      (chars " --global-config " ++ (goQuote root ++ (chars " ssh --stdio " ++ hostname))))) =
      true := isProxyCommandLine_generated _
  have hoptsline : List.countP isProxyCommandLine (opts.map (fun o => '\t' :: o)) = 0 := by
    rw [List.countP_eq_zero]
    intro a ha
    obtain ⟨o, ho, rfl⟩ := List.mem_map.mp ha
    rw [isProxyCommandLine_option, hopts o ho]
    exact Bool.false_ne_true
  have hf1 : isProxyCommandLine (chars "\tConnectTimeout=0") = false := by decide
  have hf2 : isProxyCommandLine (chars "\tStrictHostKeyChecking=no") = false := by decide
  have hf3 : isProxyCommandLine (chars "\tUserKnownHostsFile=/dev/null") = false := by decide
  have hf4 : isProxyCommandLine (chars "\tLogLevel ERROR") = false := by decide
  constructor
  · simp [proxyLineCount, configOptionsFor, List.countP_append, List.countP_cons,
      hhost, hhn, hoptsline, hf1, hf2, hf3, hf4]
  · simp [proxyLineCount, configOptionsFor, List.countP_append, List.countP_cons,
      hhost, hhn, hproxy, hoptsline, hf1, hf2, hf3, hf4]

/-- C8 counterexample: with the skip-proxy flag set and the verbatim extra
    option ProxyCommand corporate-proxy, the rendered stanza does contain a
    ProxyCommand line (exactly the injected one), contradicting the claim
    that under the flag no stanza contains one. -/
theorem claim_C8_cex :
    proxyLineCount (configOptionsFor [chars "ProxyCommand corporate-proxy"] true
      (chars "/bin/coder") (chars "/cfg") (chars "dev")) ≠ 0 ∧
    proxyLineCount (configOptionsFor [chars "ProxyCommand corporate-proxy"] true
      (chars "/bin/coder") (chars "/cfg") (chars "dev")) = 1 := by decide

/-- Witness for C8 with the ordinary option ForwardAgent yes. -/
theorem claim_C8_witness :
    (∀ o ∈ [chars "ForwardAgent yes"], (chars "ProxyCommand ").isPrefixOf o = false) ∧
    proxyLineCount (configOptionsFor [chars "ForwardAgent yes"] true
      (chars "/usr/local/bin/coder") (chars "/home/u/.coder") (chars "dev")) = 0 ∧
    proxyLineCount (configOptionsFor [chars "ForwardAgent yes"] false
      (chars "/usr/local/bin/coder") (chars "/home/u/.coder") (chars "dev")) = 1 := by
  refine ⟨by decide, ?_, ?_⟩
  · exact (claim_C8 [chars "ForwardAgent yes"] (chars "/usr/local/bin/coder")
      (chars "/home/u/.coder") (chars "dev") (by decide)).1
  · exact (claim_C8 [chars "ForwardAgent yes"] (chars "/usr/local/bin/coder")
      (chars "/home/u/.coder") (chars "dev") (by decide)).2

/-- A workspace holding two single-agent start resources: both agents derive
    the same alias. -/
def collidingWorkspace : Workspace :=
  ⟨chars "dev",
   [⟨WorkspaceTransition.start, [⟨chars "agent1"⟩]⟩,
    ⟨WorkspaceTransition.start, [⟨chars "agent2"⟩]⟩]⟩

/-- C4 counterexample: in a run over collidingWorkspace, the two distinct
    (workspace, agent) pairs (dev, agent1) and (dev, agent2) both derive the
    alias coder.dev — the construction does not guarantee uniqueness across
    resources. -/
theorem claim_C4_cex :
    ¬ (∀ e1 ∈ aliasEntries [collidingWorkspace], ∀ e2 ∈ aliasEntries [collidingWorkspace],
        e1.1 ≠ e2.1 → e1.2 ≠ e2.2) := by decide

/-- C4 (amended): alias uniqueness by construction holds only within one
    resource: among the agents of a single start resource with pairwise
    distinct agent names, the derived aliases are pairwise distinct.  Across
    resources — even of one workspace — the construction can collide (two
    single-agent start resources both yield coder.(workspace name), see the
    counterexample), and no validation exists. -/
theorem claim_C4 (w : Workspace) (r : WorkspaceResource)
    (hnames : (r.agents.map (fun a => a.name)).Nodup) :
    (resourceAliases w r).Nodup := by
  by_cases ht : r.transition = WorkspaceTransition.start
  · rw [resourceAliases, resourceAliasEntries, if_pos ht, List.map_map]
    by_cases hlen : 1 < r.agents.length
    · have h1 : (Prod.snd ∘ fun a => ((w.name, a.name), aliasFor w r a)) =
          (fun n => chars "coder." ++ (w.name ++ ('.' :: n))) ∘ (fun a : WorkspaceAgent => a.name) := by
        funext a
        simp [aliasFor, hostnameFor, if_pos hlen]
      rw [h1, ← List.map_map]
      refine List.Nodup.map ?_ hnames
      intro n1 n2 h
      have h2 := List.append_cancel_left h
      have h3 := List.append_cancel_left h2
      injection h3
    · match hag : r.agents with
      | [] => simp
      | [a] => simp
      | a :: b :: rest =>
        rw [hag] at hlen
        exact absurd (by simp) hlen
  · rw [resourceAliases, resourceAliasEntries, if_neg ht]
    simp

/-- Witness for C4 at the two-agent resource with distinct agent names. -/
theorem claim_C4_witness :
    (abResource.agents.map (fun a => a.name)).Nodup ∧
    (resourceAliases devWorkspace abResource).Nodup :=
  ⟨by decide, claim_C4 devWorkspace abResource (by decide)⟩

lemma configSSHRun_panic {path : List Char} {inp : ConfigSSHInput}
    (h : removeOldBlock inp.sshConfigFileContent = none) :
    configSSHRun path inp = ⟨[], RunStatus.panicked⟩ := by
  unfold configSSHRun
  rw [h]

lemma configSSHRun_err {path : List Char} {inp : ConfigSSHInput} {excised : List Char}
    (h : removeOldBlock inp.sshConfigFileContent = some excised)
    (hw : inp.workspaces.length = 0) :
    configSSHRun path inp =
      ⟨[], RunStatus.errored (chars "You don't have any workspaces!")⟩ := by
  unfold configSSHRun
  rw [h]
  dsimp only
  rw [if_pos hw]

lemma configSSHRun_ok {path : List Char} {inp : ConfigSSHInput} {excised : List Char}
    (h : removeOldBlock inp.sshConfigFileContent = some excised)
    (hw : ¬ inp.workspaces.length = 0) :
    configSSHRun path inp =
      ⟨[FSEffect.mkdirAllParentOf path,
        FSEffect.writeFile path (finalContent inp excised)], RunStatus.ok⟩ := by
  unfold configSSHRun
  rw [h]
  dsimp only
  rw [if_neg hw]

/-- C5 (amended): with an empty workspace list the run performs no
    file-system effect at all; it reports the actionable "You don't have any
    workspaces!" error whenever the block excision of the pre-existing
    content returns (in particular whenever a marker is missing), but if the
    pre-existing content starts with the start marker and contains the end
    marker the run instead aborts by the excision panic — still before any
    file mutation.  (The unamended claim promises the actionable error on
    every empty-workspace run; the panic case falsifies that, see the
    counterexample.) -/
theorem claim_C5 (path : List Char) (inp : ConfigSSHInput)
    (h : inp.workspaces = []) :
    (configSSHRun path inp).effects = [] ∧
    ((configSSHRun path inp).status =
        RunStatus.errored (chars "You don't have any workspaces!") ∨
      (configSSHRun path inp).status = RunStatus.panicked) ∧
    (∀ c, removeOldBlock inp.sshConfigFileContent = some c →
      (configSSHRun path inp).status =
        RunStatus.errored (chars "You don't have any workspaces!")) := by
  cases hr : removeOldBlock inp.sshConfigFileContent with
  | none =>
    rw [configSSHRun_panic hr]
    refine ⟨rfl, Or.inr rfl, ?_⟩
    intro c hc
    exact absurd hc (by simp)
  | some excised =>
    have hlen : inp.workspaces.length = 0 := by rw [h]; rfl
    rw [configSSHRun_err hr hlen]
    exact ⟨rfl, Or.inl rfl, fun c _ => rfl⟩

/-- Empty-workspace run over a config file whose managed block starts at
    offset 0. -/
def panicInput : ConfigSSHInput :=
  ⟨panicCfg, [], [], false, chars "/bin/coder", chars "/cfg"⟩

/-- C5 counterexample: an empty-workspace run can end with the excision
    panic instead of the actionable error (the file is still untouched). -/
theorem claim_C5_cex :
    panicInput.workspaces = [] ∧
    (configSSHRun (chars "/home/u/.ssh/config") panicInput).status ≠
      RunStatus.errored (chars "You don't have any workspaces!") ∧
    (configSSHRun (chars "/home/u/.ssh/config") panicInput).status =
      RunStatus.panicked := by decide

/-- Empty-workspace run over an ordinary config file. -/
def emptyWorkspacesInput : ConfigSSHInput :=
  ⟨chars "Host example\n\tPort 22\n", [], [], false, chars "/bin/coder", chars "/cfg"⟩

/-- Witness for C5: the empty-workspace run on an ordinary file performs no
    effect and errors with the actionable message. -/
theorem claim_C5_witness :
    emptyWorkspacesInput.workspaces = [] ∧
    (configSSHRun (chars "/home/u/.ssh/config") emptyWorkspacesInput).effects = [] ∧
    (configSSHRun (chars "/home/u/.ssh/config") emptyWorkspacesInput).status =
      RunStatus.errored (chars "You don't have any workspaces!") := by
  refine ⟨rfl, ?_, ?_⟩
  · exact (claim_C5 (chars "/home/u/.ssh/config") emptyWorkspacesInput rfl).1
  · exact (claim_C5 (chars "/home/u/.ssh/config") emptyWorkspacesInput rfl).2.2
      (emptyWorkspacesInput.sshConfigFileContent) (by decide)

/-- A config text containing two managed blocks. -/
def doubleBlockCfg : List Char :=
  chars "ab" ++ (sshStartToken ++ (sshEndToken ++
    (chars "cd" ++ (sshStartToken ++ sshEndToken))))

/-- C10 counterexample: on a text with two marker pairs the locator's output
    still contains a marker pair, and a second application removes more
    text — the locator is not idempotent on its own output. -/
theorem claim_C10_cex :
    removeOldBlock doubleBlockCfg =
      some (chars "acd" ++ (sshStartToken ++ sshEndToken)) ∧
    removeOldBlock (chars "acd" ++ (sshStartToken ++ sshEndToken)) =
      some (chars "ac") ∧
    chars "ac" ≠ chars "acd" ++ (sshStartToken ++ sshEndToken) := by decide

/-- C10 (amended): the locator is idempotent on well-formed texts: whenever
    each marker occurs at most once, every start-marker occurrence precedes
    every end-marker occurrence, and the locator returns an output, applying
    it to that output returns it unchanged.  (The unamended claim quantifies
    over all texts and fails on a text with two managed blocks, see the
    counterexample.) -/
theorem claim_C10 (s t : List Char)
    (hs : ∀ i j, occursAt sshStartToken s i → occursAt sshStartToken s j → i = j)
    (he : ∀ i j, occursAt sshEndToken s i → occursAt sshEndToken s j → i = j)
    (hord : ∀ i j, occursAt sshStartToken s i → occursAt sshEndToken s j → i < j)
    (h : removeOldBlock s = some t) :
    removeOldBlock t = some t := by
  have hstl : 0 < sshStartToken.length := by decide
  have hetl : 0 < sshEndToken.length := by decide
  cases hsi : stringsIndex s sshStartToken with
  | none =>
    rw [removeOldBlock_noStart hsi] at h
    injection h with h
    subst h
    exact removeOldBlock_noStart hsi
  | some si =>
    cases hei : stringsIndex s sshEndToken with
    | none =>
      rw [removeOldBlock_noEnd hsi hei] at h
      injection h with h
      subst h
      exact removeOldBlock_noEnd hsi hei
    | some ei =>
      rw [removeOldBlock_both hsi hei] at h
      by_cases h0 : si = 0
      · rw [if_pos h0] at h
        exact absurd h (by simp)
      · rw [if_neg h0] at h
        injection h with h
        obtain ⟨hso, hsmin⟩ := stringsIndex_some hsi
        obtain ⟨heo, hemin⟩ := stringsIndex_some hei
        have hlt : si < ei := hord si ei hso heo
        have hsb := occursAt_le_length sshStartToken_ne_nil hso
        have hlenA : (s.take (si - 1)).length = si - 1 := by
          rw [List.length_take]
          exact Nat.min_eq_left (by omega)
        cases hti : stringsIndex t sshStartToken with
        | none => exact removeOldBlock_noStart hti
        | some p =>
          cases htei : stringsIndex t sshEndToken with
          | none => exact removeOldBlock_noEnd hti htei
          | some q =>
            exfalso
            have hPo : occursAt sshStartToken t p := (stringsIndex_some hti).1
            have hQo : occursAt sshEndToken t q := (stringsIndex_some htei).1
            rw [← h] at hPo hQo
            have hspan1 : p < si - 1 ∧ si - 1 < p + sshStartToken.length := by
              rcases occursAt_append_split hPo with ⟨hb, hocc⟩ | ⟨hb, hocc⟩ | hsp
              · rw [hlenA] at hb
                exact absurd (occursAt_take hocc) (hsmin p (by omega))
              · rw [hlenA] at hb hocc
                have h8 := occursAt_drop hocc
                have h9 := hs si _ hso h8
                omega
              · rwa [hlenA] at hsp
            have hspan2 : q < si - 1 ∧ si - 1 < q + sshEndToken.length := by
              rcases occursAt_append_split hQo with ⟨hb, hocc⟩ | ⟨hb, hocc⟩ | hsp
              · rw [hlenA] at hb
                exact absurd (occursAt_take hocc) (hemin q (by omega))
              · rw [hlenA] at hb hocc
                have h8 := occursAt_drop hocc
                have h9 := he ei _ heo h8
                omega
              · rwa [hlenA] at hsp
            rcases Nat.lt_trichotomy p q with hpq | hpq | hpq
            · have hd : q - p < sshStartToken.length := by omega
              have h8 := occursAt_getElem hPo (q - p) hd
              have h9 := occursAt_getElem hQo 0 (by decide)
              rw [show p + (q - p) = q by omega] at h8
              rw [Nat.add_zero] at h9
              have h10 : sshStartToken[q - p]? = some '#' := by
                rw [← h8, h9]; decide
              exact startToken_hash_only_zero (q - p) hd (by omega) h10
            · subst hpq
              have h8 := occursAt_getElem hPo 14 (by decide)
              have h9 := occursAt_getElem hQo 14 (by decide)
              have h10 : sshStartToken[14]? = sshEndToken[14]? := by
                rw [← h8, h9]
              exact absurd h10 (by decide)
            · have hd : p - q < sshEndToken.length := by omega
              have h8 := occursAt_getElem hQo (p - q) hd
              have h9 := occursAt_getElem hPo 0 (by decide)
              rw [show q + (p - q) = p by omega] at h8
              rw [Nat.add_zero] at h9
              have h10 : sshEndToken[p - q]? = some '#' := by
                rw [← h8, h9]; decide
              exact endToken_hash_only_zero (p - q) hd (by omega) h10

/-- Witness for C10 at the concrete one-block config text. -/
theorem claim_C10_witness :
    (∀ i j, occursAt sshStartToken exampleCfg i → occursAt sshStartToken exampleCfg j → i = j) ∧
    (∀ i j, occursAt sshEndToken exampleCfg i → occursAt sshEndToken exampleCfg j → i = j) ∧
    (∀ i j, occursAt sshStartToken exampleCfg i → occursAt sshEndToken exampleCfg j → i < j) ∧
    removeOldBlock exampleCfg = some (chars "user config\ntrailing") ∧
    removeOldBlock (chars "user config\ntrailing") = some (chars "user config\ntrailing") := by
  have hs : ∀ i j, occursAt sshStartToken exampleCfg i →
      occursAt sshStartToken exampleCfg j → i = j := by
    intro i j hi hj
    have h1 := unique_occurrence_of_ball 12 sshStartToken_ne_nil (by decide) i hi
    have h2 := unique_occurrence_of_ball 12 sshStartToken_ne_nil (by decide) j hj
    rw [h1, h2]
  have he : ∀ i j, occursAt sshEndToken exampleCfg i →
      occursAt sshEndToken exampleCfg j → i = j := by
    intro i j hi hj
    have h1 := unique_occurrence_of_ball 60 sshEndToken_ne_nil (by decide) i hi
    have h2 := unique_occurrence_of_ball 60 sshEndToken_ne_nil (by decide) j hj
    rw [h1, h2]
  have hord : ∀ i j, occursAt sshStartToken exampleCfg i →
      occursAt sshEndToken exampleCfg j → i < j := by
    intro i j hi hj
    have h1 := unique_occurrence_of_ball 12 sshStartToken_ne_nil (by decide) i hi
    have h2 := unique_occurrence_of_ball 60 sshEndToken_ne_nil (by decide) j hj
    omega
  have hrem : removeOldBlock exampleCfg = some (chars "user config\ntrailing") := by decide
  exact ⟨hs, he, hord, hrem,
    claim_C10 exampleCfg (chars "user config\ntrailing") hs he hord hrem⟩

/-- The fixed text between the preserved prefix and the generated body:
    newline, start token, newline, start message, blank line. -/
def blockMid : List Char :=
  '\n' :: (sshStartToken ++ ('\n' :: (sshStartMessage ++ chars "\n\n")))

/-- The fixed text closing the block: newline then the end token. -/
def blockTail : List Char := '\n' :: sshEndToken

lemma finalContent_decomp (inp : ConfigSSHInput) (excised : List Char) :
    finalContent inp excised =
      excised ++ (blockMid ++ (bodyOf inp ++ blockTail)) := by
  simp [finalContent, blockMid, blockTail, List.append_assoc]

/-- Replacing only the file content of an input. -/
def withContent (inp : ConfigSSHInput) (c : List Char) : ConfigSSHInput :=
  ⟨c, inp.workspaces, inp.sshOptions, inp.skipProxyCommand, inp.binaryFile, inp.root⟩

lemma blockMid_start_occ : occursAt sshStartToken blockMid 1 := by decide

lemma blockMid_start_unique :
    ∀ j, occursAt sshStartToken blockMid j → j = 1 :=
  unique_occurrence_of_ball 1 sshStartToken_ne_nil (by decide)

lemma blockMid_no_end : ∀ j, ¬ occursAt sshEndToken blockMid j :=
  no_occurrence_of_ball sshEndToken_ne_nil (by decide)

lemma blockMid_ne_nil : blockMid ≠ [] := by decide

lemma blockMid_head : blockMid[0]? = some '\n' := by decide

lemma blockMid_last : blockMid[blockMid.length - 1]? = some '\n' := by decide

lemma blockTail_head : blockTail[0]? = some '\n' := by decide

/-- The end token occurs in blockTail only right after the newline. -/
lemma blockTail_end_unique : ∀ r, occursAt sshEndToken blockTail r → r = 1 := by
  intro r h
  match r with
  | 0 =>
    exfalso
    obtain ⟨t, ht⟩ := (occursAt_zero _ _).mp h
    have h0 : (sshEndToken ++ t).head? = some '#' := rfl
    rw [ht] at h0
    exact absurd h0 (by decide)
  | r + 1 =>
    have h1 := (occursAt_succ_cons _ _ _ _).mp h
    have h2 := occursAt_le_length sshEndToken_ne_nil h1
    omega

lemma blockTail_no_start : ∀ r, ¬ occursAt sshStartToken blockTail r := by
  intro r h
  match r with
  | 0 =>
    obtain ⟨t, ht⟩ := (occursAt_zero _ _).mp h
    have h0 : (sshStartToken ++ t).head? = some '#' := rfl
    rw [ht] at h0
    exact absurd h0 (by decide)
  | r + 1 =>
    have h1 := (occursAt_succ_cons _ _ _ _).mp h
    have h2 := occursAt_le_length sshStartToken_ne_nil h1
    have h3 := endToken_length_lt
    omega

lemma blockTail_end_occ : occursAt sshEndToken blockTail 1 := by decide

lemma getElem_append_first (x y : List Char) : (x ++ y)[x.length]? = y[0]? := by
  rw [List.getElem?_append_right (le_refl _), Nat.sub_self]

/-- In a freshly written file (marker-free prefix, marker-free body) the end
    token occurs only at its generated position. -/
lemma end_unique_in_final (p body : List Char)
    (hpe : ∀ j, ¬ occursAt sshEndToken p j)
    (hbe : ∀ j, ¬ occursAt sshEndToken body j) :
    ∀ j, occursAt sshEndToken (p ++ (blockMid ++ (body ++ blockTail))) j →
      j = p.length + blockMid.length + body.length + 1 := by
  intro j hocc
  have hetl : 0 < sshEndToken.length := by decide
  have hbm : 0 < blockMid.length := by decide
  rcases occursAt_append_split hocc with ⟨hb1, h1⟩ | ⟨hb1, h1⟩ | ⟨hb1a, hb1b⟩
  · exact absurd h1 (hpe j)
  · rcases occursAt_append_split h1 with ⟨hb2, h2⟩ | ⟨hb2, h2⟩ | ⟨hb2a, hb2b⟩
    · exact absurd h2 (blockMid_no_end _)
    · rcases occursAt_append_split h2 with ⟨hb3, h3⟩ | ⟨hb3, h3⟩ | ⟨hb3a, hb3b⟩
      · exact absurd h3 (hbe _)
      · have h4 := blockTail_end_unique _ h3
        omega
      · have hchar : (body ++ blockTail)[body.length]? = some '\n' := by
          rw [getElem_append_first]
          exact blockTail_head
        exact (occursAt_newline_contra h2 (by omega) (by omega) hchar endToken_no_newline).elim
    · have hchar : (blockMid ++ (body ++ blockTail))[blockMid.length - 1]? = some '\n' := by
        rw [List.getElem?_append_left (by omega)]
        exact blockMid_last
      exact (occursAt_newline_contra h1 (by omega) (by omega) hchar endToken_no_newline).elim
  · have hchar : (p ++ (blockMid ++ (body ++ blockTail)))[p.length]? = some '\n' := by
      rw [getElem_append_first, List.getElem?_append_left hbm]
      exact blockMid_head
    exact (occursAt_newline_contra hocc (by omega) (by omega) hchar endToken_no_newline).elim

/-- In a freshly written file the start token occurs only at its generated
    position, right after the first newline. -/
lemma start_unique_in_final (p body : List Char)
    (hps : ∀ j, ¬ occursAt sshStartToken p j)
    (hbs : ∀ j, ¬ occursAt sshStartToken body j) :
    ∀ j, occursAt sshStartToken (p ++ (blockMid ++ (body ++ blockTail))) j →
      j = p.length + 1 := by
  intro j hocc
  have hstl : 0 < sshStartToken.length := by decide
  have hbm : 0 < blockMid.length := by decide
  rcases occursAt_append_split hocc with ⟨hb1, h1⟩ | ⟨hb1, h1⟩ | ⟨hb1a, hb1b⟩
  · exact absurd h1 (hps j)
  · rcases occursAt_append_split h1 with ⟨hb2, h2⟩ | ⟨hb2, h2⟩ | ⟨hb2a, hb2b⟩
    · have h4 := blockMid_start_unique _ h2
      omega
    · rcases occursAt_append_split h2 with ⟨hb3, h3⟩ | ⟨hb3, h3⟩ | ⟨hb3a, hb3b⟩
      · exact absurd h3 (hbs _)
      · exact absurd h3 (blockTail_no_start _)
      · have hchar : (body ++ blockTail)[body.length]? = some '\n' := by
          rw [getElem_append_first]
          exact blockTail_head
        exact (occursAt_newline_contra h2 (by omega) (by omega) hchar startToken_no_newline).elim
    · have hchar : (blockMid ++ (body ++ blockTail))[blockMid.length - 1]? = some '\n' := by
        rw [List.getElem?_append_left (by omega)]
        exact blockMid_last
      exact (occursAt_newline_contra h1 (by omega) (by omega) hchar startToken_no_newline).elim
  · have hchar : (p ++ (blockMid ++ (body ++ blockTail)))[p.length]? = some '\n' := by
      rw [getElem_append_first, List.getElem?_append_left hbm]
      exact blockMid_head
    exact (occursAt_newline_contra hocc (by omega) (by omega) hchar startToken_no_newline).elim

lemma start_occurs_in_final (p body : List Char) :
    occursAt sshStartToken (p ++ (blockMid ++ (body ++ blockTail))) (p.length + 1) :=
  occursAt_append_right p (occursAt_append_left (body ++ blockTail) blockMid_start_occ)

lemma end_occurs_in_final (p body : List Char) :
    occursAt sshEndToken (p ++ (blockMid ++ (body ++ blockTail)))
      (p.length + blockMid.length + body.length + 1) := by
  have h1 := occursAt_append_right body blockTail_end_occ
  have h2 := occursAt_append_right blockMid h1
  have h3 := occursAt_append_right p h2
  rwa [show p.length + (blockMid.length + (body.length + 1)) =
    p.length + blockMid.length + body.length + 1 by omega] at h3

/-- C2 (amended): the pipeline is idempotent provided the markers occur
    neither in the text kept after excising the old block nor in the
    generated stanza body (the latter is the spec's own byte-exact-format
    requirement that the marker lines never appear inside stanza content).
    Under those conditions a second run over the first run's output writes
    byte-identical content.  (The unamended claim quantifies over every
    pre-existing file; a file with two managed blocks falsifies it, see the
    counterexample.) -/
theorem claim_C2 (path : List Char) (inp : ConfigSSHInput) (c1 : List Char)
    (h1 : configSSHRun path inp =
      ⟨[FSEffect.mkdirAllParentOf path, FSEffect.writeFile path c1], RunStatus.ok⟩)
    (hkept : ∀ excised, removeOldBlock inp.sshConfigFileContent = some excised →
      (∀ j, ¬ occursAt sshStartToken excised j) ∧
      (∀ j, ¬ occursAt sshEndToken excised j))
    (hbody1 : ∀ j, ¬ occursAt sshStartToken (bodyOf inp) j)
    (hbody2 : ∀ j, ¬ occursAt sshEndToken (bodyOf inp) j) :
    configSSHRun path (withContent inp c1) =
      ⟨[FSEffect.mkdirAllParentOf path, FSEffect.writeFile path c1], RunStatus.ok⟩ := by
  cases hr : removeOldBlock inp.sshConfigFileContent with
  | none =>
    rw [configSSHRun_panic hr] at h1
    exact absurd h1 (by simp)
  | some excised =>
    by_cases hw : inp.workspaces.length = 0
    · rw [configSSHRun_err hr hw] at h1
      exact absurd h1 (by simp)
    · rw [configSSHRun_ok hr hw] at h1
      have hc1 : finalContent inp excised = c1 := by
        have h2 := congrArg RunResult.effects h1
        injection h2 with _ h3
        injection h3 with h4 _
        injection h4 with _ h5
      obtain ⟨hps, hpe⟩ := hkept excised hr
      have hdecomp : c1 = excised ++ (blockMid ++ (bodyOf inp ++ blockTail)) := by
        rw [← hc1, finalContent_decomp]
      have hso : occursAt sshStartToken c1 (excised.length + 1) := by
        rw [hdecomp]
        exact start_occurs_in_final excised (bodyOf inp)
      have hsmin : ∀ j, occursAt sshStartToken c1 j → excised.length + 1 ≤ j := by
        intro j hj
        rw [hdecomp] at hj
        exact le_of_eq (start_unique_in_final excised (bodyOf inp) hps hbody1 j hj).symm
      have heo : occursAt sshEndToken c1
          (excised.length + blockMid.length + (bodyOf inp).length + 1) := by
        rw [hdecomp]
        exact end_occurs_in_final excised (bodyOf inp)
      have hemin : ∀ j, occursAt sshEndToken c1 j →
          excised.length + blockMid.length + (bodyOf inp).length + 1 ≤ j := by
        intro j hj
        rw [hdecomp] at hj
        exact le_of_eq (end_unique_in_final excised (bodyOf inp) hpe hbody2 j hj).symm
      have hsi2 : stringsIndex c1 sshStartToken = some (excised.length + 1) :=
        stringsIndex_eq_some_of_minimal hso hsmin
      have hei2 : stringsIndex c1 sshEndToken =
          some (excised.length + blockMid.length + (bodyOf inp).length + 1) :=
        stringsIndex_eq_some_of_minimal heo hemin
      have hrem2 : removeOldBlock c1 = some excised := by
        rw [removeOldBlock_both hsi2 hei2, if_neg (by omega)]
        congr 1
        rw [hdecomp]
        have ht1 : (excised ++ (blockMid ++ (bodyOf inp ++ blockTail))).take
            (excised.length + 1 - 1) = excised := by
          rw [show excised.length + 1 - 1 = excised.length by omega, List.take_left]
        have ht2 : (excised ++ (blockMid ++ (bodyOf inp ++ blockTail))).drop
            (excised.length + blockMid.length + (bodyOf inp).length + 1 +
              sshEndToken.length) = [] := by
          apply List.drop_eq_nil_of_le
          simp [List.length_append, blockTail]
          omega
        rw [ht1, ht2, List.append_nil]
      have hrem2' : removeOldBlock ((withContent inp c1).sshConfigFileContent) =
          some excised := hrem2
      have hw2 : ¬ (withContent inp c1).workspaces.length = 0 := hw
      rw [configSSHRun_ok hrem2' hw2]
      have hsame : finalContent (withContent inp c1) excised =
          finalContent inp excised := rfl
      rw [hsame, hc1]

/-- A run whose pre-existing file contains two managed blocks. -/
def doubleBlockInput : ConfigSSHInput :=
  ⟨doubleBlockCfg, [devWorkspace], [], true, chars "/bin/coder", chars "/cfg"⟩

/-- C2 counterexample: over a pre-existing file holding two marker pairs the
    first run leaves a marker pair in the preserved prefix, so the second
    run excises differently and writes different bytes. -/
theorem claim_C2_cex :
    writtenContent (configSSHRun (chars "/s") doubleBlockInput) ≠ none ∧
    writtenContent (configSSHRun (chars "/s")
        (withContent doubleBlockInput
          ((writtenContent (configSSHRun (chars "/s") doubleBlockInput)).getD []))) ≠
      writtenContent (configSSHRun (chars "/s") doubleBlockInput) := by decide

/-- A run over an initially marker-free (empty) file. -/
def freshInput : ConfigSSHInput :=
  ⟨chars "", [devWorkspace], [], false,
   chars "/usr/local/bin/coder", chars "/home/u/.coder"⟩

/-- Witness for C2: starting from an empty file, running the pipeline again
    over the first run's output writes identical bytes. -/
theorem claim_C2_witness :
    configSSHRun (chars "/home/u/.ssh/config") freshInput =
      ⟨[FSEffect.mkdirAllParentOf (chars "/home/u/.ssh/config"),
        FSEffect.writeFile (chars "/home/u/.ssh/config")
          (finalContent freshInput (chars ""))], RunStatus.ok⟩ ∧
    (∀ j, ¬ occursAt sshStartToken (bodyOf freshInput) j) ∧
    (∀ j, ¬ occursAt sshEndToken (bodyOf freshInput) j) ∧
    configSSHRun (chars "/home/u/.ssh/config")
        (withContent freshInput (finalContent freshInput (chars ""))) =
      ⟨[FSEffect.mkdirAllParentOf (chars "/home/u/.ssh/config"),
        FSEffect.writeFile (chars "/home/u/.ssh/config")
          (finalContent freshInput (chars ""))], RunStatus.ok⟩ := by
  have hb1 : ∀ j, ¬ occursAt sshStartToken (bodyOf freshInput) j :=
    no_occurrence_of_ball sshStartToken_ne_nil (by decide)
  have hb2 : ∀ j, ¬ occursAt sshEndToken (bodyOf freshInput) j :=
    no_occurrence_of_ball sshEndToken_ne_nil (by decide)
  have h1 : configSSHRun (chars "/home/u/.ssh/config") freshInput =
      ⟨[FSEffect.mkdirAllParentOf (chars "/home/u/.ssh/config"),
        FSEffect.writeFile (chars "/home/u/.ssh/config")
          (finalContent freshInput (chars ""))], RunStatus.ok⟩ :=
    configSSHRun_ok (by decide) (by decide)
  have hkept : ∀ excised,
      removeOldBlock freshInput.sshConfigFileContent = some excised →
      (∀ j, ¬ occursAt sshStartToken excised j) ∧
      (∀ j, ¬ occursAt sshEndToken excised j) := by
    intro excised he
    have he0 : removeOldBlock freshInput.sshConfigFileContent = some [] := by decide
    rw [he0] at he
    have he1 : excised = [] := (Option.some.inj he).symm
    subst he1
    constructor
    · exact no_occurrence_of_ball sshStartToken_ne_nil (by decide)
    · exact no_occurrence_of_ball sshEndToken_ne_nil (by decide)
  exact ⟨h1, hb1, hb2,
    claim_C2 (chars "/home/u/.ssh/config") freshInput
      (finalContent freshInput (chars "")) h1 hkept hb1 hb2⟩
